import Mathlib

/-!
# Verification of `prettylogging/core.py`

Shallow embedding of the core of the `prettylogging` package and proofs about it.

Modelling conventions:
* Python strings that flow through the stream-indentation machinery are represented
  as `List Char`; `str.split("\n")` and `"...".join` are re-implemented structurally
  (`pySplit`, `pyJoin`) with Python semantics (`"".split("\n") = [""]`, no merging of
  separators).
* A Python exception is an explicit `PyErr` value; fallible operations return `Except`.
* A stream's mutable `write` attribute is a value of the inductive `WriteFn`
  (`base` is the pristine primitive, `indented w` is `indent_write(w)`), and the
  process-wide mutable state is a map from stream identity to `Option WriteFn`
  (`none` models an object without a `write` attribute).
* Machine floats of `pretty_time` are modelled by exact rationals; `f"{x:.1f}"`
  is modelled by round-half-even to one decimal digit, which agrees with CPython
  on every input appearing in the claims.
-/

set_option autoImplicit false

/-- Python exceptions that the modelled code can raise. -/
inductive PyErr where
  | indexError
  | valueError
  | fileNotFoundError
  | attributeError
deriving DecidableEq, Repr

/-! ## Character-list primitives for Python string operations -/

/-- `message.split("\n")` on character lists, with Python semantics:
the empty string splits to `[""]`, and separators are never merged. -/
def pySplit : List Char → List (List Char)
  | [] => [[]]
  | c :: cs =>
    if c = '\n' then [] :: pySplit cs
    else
      match pySplit cs with
      | [] => [[c]]
      | l :: ls => (c :: l) :: ls

/-- `sep.join(parts)` on character lists. -/
def pyJoin (sep : List Char) : List (List Char) → List Char
  | [] => []
  | [l] => l
  | l :: l2 :: t => l ++ sep ++ pyJoin sep (l2 :: t)

/-- `indentation_sep = "\t"` (core.py line 22): one indentation unit. -/
def indentation_sep : List Char := ['\t']

/-- The body of `indent_write.wrapper` (core.py lines 135-141):
`indentation_sep + f"\n{indentation_sep}".join(message[:-1].split("\n")) + message[-1]`.
`message[-1]` raises `IndexError` on the empty string, modelled by `none`. -/
def indent_write_msg (message : List Char) : Option (List Char) :=
  match message.getLast? with
  | none => none
  | some last =>
    some (indentation_sep ++ pyJoin ('\n' :: indentation_sep) (pySplit message.dropLast) ++ [last])

/-- `indent_write(write)` applied to a message: transform the message, delegate to
`write` exactly once, return its result (core.py lines 134-143). -/
def indent_write {ρ : Type} (write : List Char → ρ) (message : List Char) : Except PyErr ρ :=
  match indent_write_msg message with
  | none => .error .indexError
  | some m2 => .ok (write m2)

/-- The value of a stream's `write` attribute: either the original primitive, or
some number of `indent_write` wrappers stacked on top of it. -/
inductive WriteFn where
  | base
  | indented (w : WriteFn)
deriving DecidableEq, Repr

/-- Run a `write` attribute on a message. The pristine primitive `base` emits the
message unchanged (its observable output); each `indented` layer performs the
`indent_write.wrapper` transformation and delegates. -/
def runW : WriteFn → List Char → Except PyErr (List Char)
  | .base, m => .ok m
  | .indented w, m =>
    match indent_write_msg m with
    | none => .error .indexError
    | some m2 => runW w m2

/-! ## Specification-side description of the indentation transform -/

/-- Prefix every line with `pre`, except that a trailing empty fragment (present
exactly when the message ended with a newline) is left alone. This is the
spec's "every line-terminated substring except the final fragment is prefixed
with one indentation unit". -/
def tabbedLines (pre : List Char) : List (List Char) → List (List Char)
  | [] => []
  | [l] => [if l = [] then [] else pre ++ l]
  | l :: l2 :: t => (pre ++ l) :: tabbedLines pre (l2 :: t)

/-- Spec-side indentation: split the message on newlines, prefix every line except
a trailing empty fragment with `pre`, and re-join. -/
def specIndent (pre : List Char) (m : List Char) : List Char :=
  pyJoin ['\n'] (tabbedLines pre (pySplit m))

/-- Append a character to the last element of a list of lines (what appending a
non-newline character to a string does to its `split("\n")`). -/
def extendLast : List (List Char) → Char → List (List Char)
  | [], c => [[c]]
  | [l], c => [l ++ [c]]
  | l :: l2 :: t, c => l :: extendLast (l2 :: t) c

/-! ## Mutable stream state and the `indent` / `indent_logger` decorators -/

/-- The process-wide mutable state: each stream identity maps to the current value
of its `write` attribute (`none` models an object without a `write` attribute). -/
abbrev StrState := Nat → Option WriteFn

/-- One step of the patch loop (core.py lines 195-197 / 246-248): if the captured
`old_write[i]` was not `None`, set `stream.write = indent_write(stream.write)`,
wrapping the stream's CURRENT write attribute. -/
def patchStep (τ : StrState) (p : Nat × Option WriteFn) : StrState :=
  match p.2 with
  | none => τ
  | some _ => fun x => if x = p.1 then (τ p.1).map WriteFn.indented else τ x

/-- One step of the restore loop (core.py lines 202-204 / 253-255): if the captured
`old_write[i]` was not `None`, set `stream.write = old_write[i]`. -/
def restoreStep (τ : StrState) (p : Nat × Option WriteFn) : StrState :=
  match p.2 with
  | none => τ
  | some w => fun x => if x = p.1 then some w else τ x

def patchAll (ps : List (Nat × Option WriteFn)) (σ : StrState) : StrState :=
  ps.foldl patchStep σ

def restoreAll (ps : List (Nat × Option WriteFn)) (σ : StrState) : StrState :=
  ps.foldl restoreStep σ

/-- The `(stream, old_write)` pairs: `old_write` is captured for EVERY stream
before any patching happens (core.py lines 191-193 / 242-244). -/
def pairsOf (streams : List Nat) (σ : StrState) : List (Nat × Option WriteFn) :=
  streams.zip (streams.map (fun s => σ s))

/-- `indent(*streams).wrapper_outer.wrapper_inner` (core.py lines 189-205):
capture all old writes, patch, run the body, restore in a `finally`, and
propagate the body's result or exception unchanged. The body `func` is an
arbitrary state transformer that may itself touch stream state and may raise. -/
def wrapper_inner {α : Type} (streams : List Nat)
    (func : StrState → StrState × Except PyErr α) (σ : StrState) :
    StrState × Except PyErr α :=
  let ps := pairsOf streams σ
  let σ1 := patchAll ps σ
  let res := func σ1
  (restoreAll ps res.1, res.2)

/-- Observable effect of `stream.write(m)` in a given state: look up the stream's
current write attribute and run it (missing attribute raises `AttributeError`). -/
def writeObs (σ : StrState) (s : Nat) (m : List Char) : Except PyErr (List Char) :=
  match σ s with
  | none => .error .attributeError
  | some w => runW w m

/-- A logging handler: `stream` is `none` when the handler object has no `stream`
attribute (`hasattr(h, "stream")` is false). -/
structure PyHandler where
  stream : Option Nat
deriving DecidableEq, Repr

/-- A logger in a parent chain: its handler list and its `propagate` flag. -/
structure PyLogger where
  handlers : List PyHandler
  propagate : Bool
deriving DecidableEq, Repr

/-- The stream-collection loop of `indent_logger.wrapper_inner` (core.py lines
226-239): walk `c = logger` up the parent chain (the chain is modelled as the
list `logger :: parent :: ... :: root`), gathering `h.stream` for handlers that
have a `stream` attribute, and stop after the first logger whose `propagate`
is false (`c = c.parent if c.propagate else None`). -/
def collectStreams : List PyLogger → List Nat
  | [] => []
  | l :: ancestors =>
    l.handlers.filterMap PyHandler.stream ++
      (if l.propagate then collectStreams ancestors else [])

/-- Spec-side: the prefix of the parent chain that is targeted — every logger up
to and including the first one whose propagate flag is false (or the whole
chain if all propagate). -/
def chainUpToStop : List PyLogger → List PyLogger
  | [] => []
  | l :: ancestors => if l.propagate then l :: chainUpToStop ancestors else [l]

/-- Spec-side: the streams targeted by `indent_logger` — the handler streams of
every logger in the targeted prefix of the chain. -/
def specTargets (chain : List PyLogger) : List Nat :=
  (chainUpToStop chain).foldr (fun l acc => l.handlers.filterMap PyHandler.stream ++ acc) []

/-! ## `pretty_time` (core.py lines 33-54), over exact rationals -/

/-- Floor of a rational (the value of Python's float floor-division once divided). -/
def ratFloor (q : ℚ) : ℤ := ⌊q⌋

/-- Round to the nearest integer, ties to even: the rounding used by CPython's
`format(x, ".1f")` (applied to `10 * x`). -/
def roundHalfEven (q : ℚ) : ℤ :=
  let f := ratFloor q
  let r := q - (f : ℚ)
  if r < 1 / 2 then f
  else if 1 / 2 < r then f + 1
  else if Int.emod f 2 = 0 then f else f + 1

/-- `f"{h:.0f}"` for the integral-valued floats `h` and `m` of `pretty_time`
(whole numbers print without a decimal point). -/
def fmt0 (n : ℤ) : String := toString n

/-- `f"{s:.1f}"` for a non-negative rational: round `10 * s` half-to-even and
print `⟨integer part⟩.⟨single tenth digit⟩`. -/
def fmt1 (q : ℚ) : String :=
  let n := roundHalfEven (10 * q)
  toString (Int.ediv n 10) ++ "." ++ toString (Int.emod n 10)

/-- `pretty_time(t)` (core.py lines 33-54): `h = t // 3600; t -= h*3600;
m = t // 60; s = t - m*60`, then emit `"<h> h "` if `h > 0`, `"<m> min "` if
`m > 0`, and always `"<s:.1f> s"`. -/
def pretty_time (t : ℚ) : String :=
  let h : ℤ := ratFloor (t / 3600)
  let t2 : ℚ := t - (h : ℚ) * 3600
  let m : ℤ := ratFloor (t2 / 60)
  let s : ℚ := t2 - (m : ℚ) * 60
  let pt : String := ""
  let pt := if 0 < h then pt ++ (fmt0 h ++ " h ") else pt
  let pt := if 0 < m then pt ++ (fmt0 m ++ " min ") else pt
  pt ++ (fmt1 s ++ " s")

/-- Spec-side duration format: `"<H> h <M> min <S.D> s"` where the hours component
appears only if the whole-hours value is at least 1, the minutes component
(after subtracting whole hours) only if at least 1, and seconds (after
subtracting whole hours and minutes) always with one decimal digit. -/
def prettyTimeSpec (t : ℚ) : String :=
  let H : ℤ := ratFloor (t / 3600)
  let M : ℤ := ratFloor ((t - (H : ℚ) * 3600) / 60)
  let S : ℚ := t - (H : ℚ) * 3600 - (M : ℚ) * 60
  (if 1 ≤ H then fmt0 H ++ " h " else "")
    ++ ((if 1 ≤ M then fmt0 M ++ " min " else "") ++ (fmt1 S ++ " s"))

/-! ## `new_telegram_handler` (core.py lines 308-384) -/

/-- Numeric value of a list of decimal digit characters; `none` if empty or not
all digits. -/
def digitsToNat (cs : List Char) : Option Nat :=
  if cs ≠ [] ∧ cs.all Char.isDigit then
    some (cs.foldl (fun n c => 10 * n + (c.toNat - 48)) 0)
  else none

/-- Python `int(s)` on a string: strip surrounding whitespace, optional sign,
decimal digits; `none` models `ValueError`. -/
def pyIntParse (s : String) : Option Int :=
  let t := ((s.data.dropWhile Char.isWhitespace).reverse.dropWhile Char.isWhitespace).reverse
  match t with
  | '-' :: ds => (digitsToNat ds).map (fun n => -(n : Int))
  | '+' :: ds => (digitsToNat ds).map (fun n => (n : Int))
  | ds => (digitsToNat ds).map (fun n => (n : Int))

/-- Python `line.rstrip("\n")`. -/
def rstripNL (s : String) : String :=
  String.mk ((s.data.reverse.dropWhile (fun c => c = '\n')).reverse)

/-- Models `if s.startswith("~"): s = f"{os.environ['HOME']}{s[1:]}"`. -/
def expanduser (home : String) (s : String) : String :=
  if s.data.head? = some '~' then home ++ String.mk (s.data.drop 1) else s

/-- The ambient world of `new_telegram_handler`: whether the optional
`telegram_handler` dependency imports, the `HOME` directory, and the filesystem
(mapping a path to the first line of the file there, `none` if absent). -/
structure PyEnv where
  telegram_available : Bool
  home : String
  fs : String → Option String

/-- The `chat_ID` argument: an int, or a string (a numeral or a path). -/
inductive ChatID where
  | num (n : Int)
  | str (s : String)
deriving DecidableEq, Repr

/-- The `formatter` argument: a `logging.Formatter` object (carrying its format
string), a plain string, or `None`. -/
inductive FmtArg where
  | fmtObj (fmt : String)
  | fmtStr (s : String)
  | noneArg
deriving DecidableEq, Repr

/-- `default_formatter`'s format string (core.py lines 19-21). -/
def default_formatter : String := "%(asctime)s %(message)s"

/-- Formatter resolution at the end of `new_telegram_handler` (lines 376-382):
a handler's resulting formatter (its format string), or `none` if unset. -/
def resolveFormatter : FmtArg → Option String
  | .noneArg => none
  | .fmtObj f => some f
  | .fmtStr s => some (if s = "default" then default_formatter else s)

/-- The constructed `TelegramHandler`, with the fields the function sets. -/
structure TgHandler where
  token : String
  chat_id : Int
  level : Int
  formatter : Option String
deriving DecidableEq, Repr

/-- `new_telegram_handler` (core.py lines 308-384). Returns `.ok none` when no
handler is produced (missing dependency, missing arguments, or a falsy chat ID),
`.ok (some th)` on success, and `.error e` when an uncaught exception escapes:
`open(chat_ID)` on a missing path raises `FileNotFoundError`, and a chat-ID file
whose first line is not an integer raises `ValueError`. The token `open` is
wrapped in `try ... except FileNotFoundError: pass`, so a missing token file
leaves `token` at its (possibly `~`-expanded) string value. -/
def new_telegram_handler (env : PyEnv) (chat_ID : Option ChatID) (token : Option String)
    (level : Int) (formatter : FmtArg) : Except PyErr (Option TgHandler) :=
  if env.telegram_available then
    match chat_ID, token with
    | none, _ => .ok none
    | some _, none => .ok none
    | some cid, some tok =>
      let resolved : Except PyErr Int :=
        match cid with
        | .num n => .ok n
        | .str s =>
          match pyIntParse s with
          | some n => .ok n
          | none =>
            match env.fs (expanduser env.home s) with
            | none => .error .fileNotFoundError
            | some line =>
              match pyIntParse (rstripNL line) with
              | some n => .ok n
              | none => .error .valueError
      match resolved with
      | .error e => .error e
      | .ok n =>
        if n = 0 then .ok none
        else
          let tok1 := expanduser env.home tok
          let tok2 :=
            match env.fs tok1 with
            | none => tok1
            | some line => rstripNL line
          .ok (some { token := tok2, chat_id := n, level := level,
                      formatter := resolveFormatter formatter })
  else .ok none

/-! ## `CMLogger.__enter__` / `__exit__` (core.py lines 390-425) -/

/-- Python `list.remove`: drop the first occurrence, `ValueError` if absent. -/
def listRemove : List Nat → Nat → Except PyErr (List Nat)
  | [], _ => .error .valueError
  | x :: xs, h => if x = h then .ok xs else (listRemove xs h).map (fun r => x :: r)

/-- Observable actions of `CMLogger.__exit__`, in order: `errorLog hs` is
`logger.error(traceback.format_exc())` emitted while the handler list is `hs`,
`removed h` is `logger.handlers.remove(h)`, `debugLog` is the debug confirmation. -/
inductive ExitEvent where
  | errorLog (handlers : List Nat)
  | removed (h : Nat)
  | debugLog
deriving DecidableEq, Repr

/-- `CMLogger.__exit__` (core.py lines 415-425) with its event trace: if a handler
was attached, optionally log the traceback at error severity (when exiting on an
exception), then remove the handler, then log a debug confirmation. -/
def cm_exit_trace (hs : List Nat) (handler : Option Nat) (exc : Bool) :
    List ExitEvent × Except PyErr (List Nat) :=
  match handler with
  | none => ([], .ok hs)
  | some h =>
    let evs := if exc then [ExitEvent.errorLog hs] else []
    match listRemove hs h with
    | .error e => (evs, .error e)
    | .ok hs2 => (evs ++ [ExitEvent.removed h, ExitEvent.debugLog], .ok hs2)

/-- The handler-list effect of `CMLogger.__exit__`. -/
def cm_exit (hs : List Nat) (handler : Option Nat) (exc : Bool) : Except PyErr (List Nat) :=
  (cm_exit_trace hs handler exc).2

/-- A whole `with CMLogger(...)` scope over a logger whose handler list is `hs`:
`__enter__` runs `create_new_handler` (result `created`: an exception, no
handler, or a fresh handler id) and appends the handler if one was produced;
the body runs; `__exit__` removes the handler. Returns the final handler list
and the propagated outcome. -/
def cm_scope (hs : List Nat) (created : Except PyErr (Option Nat)) (body : Except PyErr Unit) :
    List Nat × Except PyErr Unit :=
  match created with
  | .error e => (hs, .error e)
  | .ok newH =>
    let hs1 := match newH with | none => hs | some h => hs ++ [h]
    let exc := match body with | .error _ => true | .ok _ => false
    match cm_exit hs1 newH exc with
    | .error e2 => (hs1, .error e2)
    | .ok hs2 => (hs2, body)

/-! ## Lemmas about the split/join primitives -/

theorem pySplit_ne_nil : ∀ m : List Char, pySplit m ≠ []
  | [] => by simp [pySplit]
  | c :: cs => by
    simp only [pySplit]
    split
    · simp
    · match h : pySplit cs with
      | [] => simp
      | l :: ls => simp

theorem pySplit_concat (m : List Char) (c : Char) :
    pySplit (m ++ [c]) = if c = '\n' then pySplit m ++ [[]] else extendLast (pySplit m) c := by
  induction m with
  | nil =>
    by_cases hc : c = '\n' <;> simp [pySplit, extendLast, hc]
  | cons a m ih =>
    cases h : pySplit m with
    | nil => exact absurd h (pySplit_ne_nil m)
    | cons l ls =>
      rw [h] at ih
      by_cases hc : c = '\n'
      · simp only [if_pos hc] at ih ⊢
        have hstep : pySplit (m ++ [c]) = l :: (ls ++ [[]]) := by simpa using ih
        by_cases ha : a = '\n'
        · simp [pySplit, ha, hstep, h]
        · simp [pySplit, ha, hstep, h]
      · simp only [if_neg hc] at ih ⊢
        by_cases ha : a = '\n'
        · simp [pySplit, ha, ih, h, extendLast]
        · cases ls with
          | nil =>
            have hstep : pySplit (m ++ [c]) = [l ++ [c]] := by simpa [extendLast] using ih
            simp [pySplit, ha, hstep, h, extendLast]
          | cons l2 t =>
            have hstep : pySplit (m ++ [c]) = l :: extendLast (l2 :: t) c := by
              simpa [extendLast] using ih
            simp [pySplit, ha, hstep, h, extendLast]

theorem tab_join (pre : List Char) :
    ∀ xs : List (List Char), xs ≠ [] →
      pre ++ pyJoin ('\n' :: pre) xs = pyJoin ['\n'] (xs.map (fun l => pre ++ l))
  | [], h => absurd rfl h
  | [l], _ => by simp [pyJoin]
  | l :: l2 :: t, _ => by
    have ih := tab_join pre (l2 :: t) (by simp)
    simp only [pyJoin, List.map_cons]
    calc pre ++ (l ++ ('\n' :: pre) ++ pyJoin ('\n' :: pre) (l2 :: t))
        = (pre ++ l) ++ ['\n'] ++ (pre ++ pyJoin ('\n' :: pre) (l2 :: t)) := by simp
      _ = (pre ++ l) ++ ['\n'] ++ pyJoin ['\n'] ((l2 :: t).map (fun x => pre ++ x)) := by rw [ih]
      _ = pyJoin ['\n'] ((pre ++ l) :: (l2 :: t).map (fun x => pre ++ x)) := by
            cases t <;> simp [pyJoin]

theorem tabbedLines_concat_nil (pre : List Char) :
    ∀ xs : List (List Char), tabbedLines pre (xs ++ [[]]) = xs.map (fun l => pre ++ l) ++ [[]]
  | [] => by simp [tabbedLines]
  | [l] => by simp [tabbedLines]
  | l :: l2 :: t => by
    have ih := tabbedLines_concat_nil pre (l2 :: t)
    show (pre ++ l) :: tabbedLines pre ((l2 :: t) ++ [[]])
        = (pre ++ l) :: (List.map (fun x => pre ++ x) (l2 :: t) ++ [[]])
    exact congrArg _ ih

theorem tabbedLines_extendLast (pre : List Char) :
    ∀ (xs : List (List Char)) (c : Char),
      tabbedLines pre (extendLast xs c) = (extendLast xs c).map (fun l => pre ++ l)
  | [], c => by simp [extendLast, tabbedLines]
  | [l], c => by
    have hne : ¬(l ++ [c] = ([] : List Char)) := by simp
    simp [extendLast, tabbedLines, hne]
  | l :: l2 :: t, c => by
    have ih := tabbedLines_extendLast pre (l2 :: t) c
    cases h : extendLast (l2 :: t) c with
    | nil => cases l2 <;> cases t <;> simp [extendLast] at h
    | cons y ys =>
      rw [h] at ih
      simp [extendLast, tabbedLines, h, ih]

theorem map_extendLast (pre : List Char) :
    ∀ (xs : List (List Char)) (c : Char), xs ≠ [] →
      (extendLast xs c).map (fun l => pre ++ l) = extendLast (xs.map (fun l => pre ++ l)) c
  | [], _, h => absurd rfl h
  | [l], c, _ => by simp [extendLast]
  | l :: l2 :: t, c, _ => by
    have ih := map_extendLast pre (l2 :: t) c (by simp)
    simp [extendLast, ih]

theorem pyJoin_extendLast (sep : List Char) :
    ∀ (xs : List (List Char)) (c : Char), pyJoin sep (extendLast xs c) = pyJoin sep xs ++ [c]
  | [], c => by simp [extendLast, pyJoin]
  | [l], c => by simp [extendLast, pyJoin]
  | l :: l2 :: t, c => by
    have ih := pyJoin_extendLast sep (l2 :: t) c
    cases h : extendLast (l2 :: t) c with
    | nil => cases l2 <;> cases t <;> simp [extendLast] at h
    | cons y ys =>
      rw [h] at ih
      simp [extendLast, pyJoin, h, ih]

theorem pyJoin_concat (sep : List Char) :
    ∀ (xs : List (List Char)) (l : List Char), xs ≠ [] →
      pyJoin sep (xs ++ [l]) = pyJoin sep xs ++ sep ++ l
  | [], _, h => absurd rfl h
  | [x], l, _ => by simp [pyJoin]
  | x :: x2 :: t, l, _ => by
    have ih := pyJoin_concat sep (x2 :: t) l (by simp)
    show x ++ sep ++ pyJoin sep ((x2 :: t) ++ [l]) = x ++ sep ++ pyJoin sep (x2 :: t) ++ sep ++ l
    rw [ih]
    simp [List.append_assoc]

/-- The transformation performed by `indent_write.wrapper` on a non-empty message is
exactly the spec-side transform: every line except a trailing empty fragment gets
one indentation unit prefixed. -/
theorem indent_write_msg_eq (m : List Char) (hm : m ≠ []) :
    indent_write_msg m = some (specIndent indentation_sep m) := by
  obtain ⟨m', c, rfl⟩ := (List.eq_nil_or_concat m).resolve_left hm
  rw [List.concat_eq_append]
  have hsplit := pySplit_concat m' c
  by_cases hc : c = '\n'
  · subst hc
    rw [if_pos rfl] at hsplit
    simp only [indent_write_msg, List.getLast?_concat, List.dropLast_concat, specIndent,
      hsplit, tabbedLines_concat_nil]
    rw [pyJoin_concat ['\n'] _ [] (by simp [pySplit_ne_nil m'])]
    rw [← tab_join indentation_sep _ (pySplit_ne_nil m')]
    simp
  · rw [if_neg hc] at hsplit
    simp only [indent_write_msg, List.getLast?_concat, List.dropLast_concat, specIndent,
      hsplit, tabbedLines_extendLast]
    rw [map_extendLast indentation_sep (pySplit m') c (pySplit_ne_nil m'), pyJoin_extendLast,
      ← tab_join indentation_sep _ (pySplit_ne_nil m')]

/-! ## Composition of indentation transforms (nested scopes) -/

theorem pySplit_no_newline : ∀ l : List Char, '\n' ∉ l → pySplit l = [l]
  | [], _ => rfl
  | c :: cs, h => by
    have hc : ¬(c = '\n') := fun hc => h (by simp [hc])
    have ih := pySplit_no_newline cs (fun hm => h (List.mem_cons_of_mem c hm))
    simp [pySplit, hc, ih]

theorem pySplit_append_cons :
    ∀ (l r : List Char), '\n' ∉ l → ∀ (hd : List Char) (tl : List (List Char)),
      pySplit r = hd :: tl → pySplit (l ++ r) = (l ++ hd) :: tl
  | [], r, _, hd, tl, hr => by simpa using hr
  | c :: l, r, h, hd, tl, hr => by
    have hc : ¬(c = '\n') := fun hc => h (by simp [hc])
    have ih := pySplit_append_cons l r (fun hm => h (List.mem_cons_of_mem c hm)) hd tl hr
    simp [pySplit, hc, ih]

theorem mem_pySplit_no_newline : ∀ (m : List Char) (l : List Char), l ∈ pySplit m → '\n' ∉ l
  | [], l, hl => by
    simp [pySplit] at hl
    simp [hl]
  | c :: cs, l, hl => by
    by_cases hc : c = '\n'
    · simp only [pySplit, if_pos hc] at hl
      rcases List.mem_cons.mp hl with h | h
      · simp [h]
      · exact mem_pySplit_no_newline cs l h
    · simp only [pySplit, if_neg hc] at hl
      cases hsp : pySplit cs with
      | nil => exact absurd hsp (pySplit_ne_nil cs)
      | cons x xs =>
        rw [hsp] at hl
        rcases List.mem_cons.mp hl with h | h
        · subst h
          intro hmem
          rcases List.mem_cons.mp hmem with h' | h'
          · exact hc h'.symm
          · exact mem_pySplit_no_newline cs x (hsp ▸ List.mem_cons_self x xs) h'
        · exact mem_pySplit_no_newline cs l (hsp ▸ List.mem_cons_of_mem x h)

theorem pySplit_pyJoin :
    ∀ xs : List (List Char), xs ≠ [] → (∀ l ∈ xs, '\n' ∉ l) →
      pySplit (pyJoin ['\n'] xs) = xs
  | [], h, _ => absurd rfl h
  | [x], _, hnl => by
    simp only [pyJoin]
    exact pySplit_no_newline x (hnl x (by simp))
  | x :: x2 :: t, _, hnl => by
    have ih := pySplit_pyJoin (x2 :: t) (by simp)
      (fun l hl => hnl l (List.mem_cons_of_mem x hl))
    have hx : '\n' ∉ x := hnl x (by simp)
    have hstep : pySplit ('\n' :: pyJoin ['\n'] (x2 :: t)) = [] :: x2 :: t := by
      simp [pySplit, ih]
    have := pySplit_append_cons x ('\n' :: pyJoin ['\n'] (x2 :: t)) hx [] (x2 :: t) hstep
    simpa [pyJoin] using this

theorem tabbedLines_ne_nil (pre : List Char) :
    ∀ xs : List (List Char), xs ≠ [] → tabbedLines pre xs ≠ []
  | [], h => absurd rfl h
  | [l], _ => by simp [tabbedLines]
  | l :: l2 :: t, _ => by simp [tabbedLines]

theorem mem_tabbedLines_no_newline (pre : List Char) (hpre : '\n' ∉ pre) :
    ∀ (xs : List (List Char)), (∀ l ∈ xs, '\n' ∉ l) →
      ∀ l ∈ tabbedLines pre xs, '\n' ∉ l
  | [], _, l, hl => by simp [tabbedLines] at hl
  | [x], hnl, l, hl => by
    simp only [tabbedLines, List.mem_singleton] at hl
    subst hl
    by_cases hx : x = ([] : List Char)
    · simp [hx]
    · simp only [if_neg hx, List.mem_append]
      rintro (h | h)
      · exact hpre h
      · exact hnl x (by simp) h
  | x :: x2 :: t, hnl, l, hl => by
    simp only [tabbedLines, List.mem_cons] at hl
    rcases hl with h | h
    · subst h
      simp only [List.mem_append]
      rintro (h | h)
      · exact hpre h
      · exact hnl x (by simp) h
    · exact mem_tabbedLines_no_newline pre hpre (x2 :: t)
        (fun y hy => hnl y (List.mem_cons_of_mem x hy)) l h

theorem tabbedLines_tabbedLines (p1 p2 : List Char) :
    ∀ xs : List (List Char), tabbedLines p1 (tabbedLines p2 xs) = tabbedLines (p1 ++ p2) xs
  | [] => rfl
  | [l] => by
    by_cases hl : l = ([] : List Char)
    · simp [tabbedLines, hl]
    · have h2 : ¬(p2 ++ l = ([] : List Char)) := by simp [hl]
      simp [tabbedLines, hl, h2, List.append_assoc]
  | l :: l2 :: t => by
    have ih := tabbedLines_tabbedLines p1 p2 (l2 :: t)
    cases h : tabbedLines p2 (l2 :: t) with
    | nil => exact absurd h (tabbedLines_ne_nil p2 (l2 :: t) (by simp))
    | cons y ys =>
      rw [h] at ih
      simp [tabbedLines, h, ih, List.append_assoc]

theorem specIndent_comp (p1 p2 : List Char) (hp2 : '\n' ∉ p2) (m : List Char) :
    specIndent p1 (specIndent p2 m) = specIndent (p1 ++ p2) m := by
  unfold specIndent
  rw [pySplit_pyJoin (tabbedLines p2 (pySplit m))
      (tabbedLines_ne_nil p2 _ (pySplit_ne_nil m))
      (mem_tabbedLines_no_newline p2 hp2 _ (mem_pySplit_no_newline m)),
    tabbedLines_tabbedLines]

theorem specIndent_tab_ne_nil (m : List Char) (hm : m ≠ []) :
    specIndent indentation_sep m ≠ [] := by
  have h := indent_write_msg_eq m hm
  cases hl : m.getLast? with
  | none => exact absurd (List.getLast?_eq_none_iff.mp hl) hm
  | some last =>
    simp only [indent_write_msg, hl] at h
    have := Option.some.inj h
    rw [← this]
    simp [indentation_sep]

theorem runW_indented (w : WriteFn) (m : List Char) (hm : m ≠ []) :
    runW (WriteFn.indented w) m = runW w (specIndent indentation_sep m) := by
  simp [runW, indent_write_msg_eq m hm]

theorem runW_double (m : List Char) (hm : m ≠ []) :
    runW (WriteFn.indented (WriteFn.indented WriteFn.base)) m
      = .ok (specIndent (indentation_sep ++ indentation_sep) m) := by
  rw [runW_indented _ m hm, runW_indented _ _ (specIndent_tab_ne_nil m hm),
    specIndent_comp _ _ (by simp [indentation_sep]) m]
  rfl

/-! ## Patch / restore lemmas -/

theorem pairsOf_val : ∀ (ss : List Nat) (σ : StrState) (s : Nat) (v : Option WriteFn),
    (s, v) ∈ pairsOf ss σ → v = σ s ∧ s ∈ ss
  | [], _, _, _, h => by simp [pairsOf] at h
  | a :: ss, σ, s, v, h => by
    simp only [pairsOf, List.map_cons, List.zip_cons_cons, List.mem_cons] at h
    rcases h with h | h
    · obtain ⟨h1, h2⟩ := Prod.mk.inj h
      subst h1; subst h2
      exact ⟨rfl, by simp⟩
    · obtain ⟨h1, h2⟩ := pairsOf_val ss σ s v h
      exact ⟨h1, List.mem_cons_of_mem a h2⟩

theorem pairsOf_mem : ∀ (ss : List Nat) (σ : StrState) (s : Nat),
    s ∈ ss → (s, σ s) ∈ pairsOf ss σ
  | [], _, _, h => by simp at h
  | a :: ss, σ, s, h => by
    simp only [pairsOf, List.map_cons, List.zip_cons_cons, List.mem_cons]
    rcases List.mem_cons.mp h with h | h
    · subst h; exact Or.inl rfl
    · exact Or.inr (pairsOf_mem ss σ s h)

theorem restoreAll_skip : ∀ (ps : List (Nat × Option WriteFn)) (τ : StrState) (s : Nat),
    (∀ w, (s, some w) ∉ ps) → restoreAll ps τ s = τ s
  | [], _, _, _ => rfl
  | p :: ps, τ, s, h => by
    have hstep : restoreStep τ p s = τ s := by
      unfold restoreStep
      cases hp : p.2 with
      | none => rfl
      | some w =>
        have hne : ¬(s = p.1) := by
          intro he
          exact h w (by rw [he, ← hp]; exact List.mem_cons_self p ps)
        simp [hne]
    have ih := restoreAll_skip ps (restoreStep τ p) s
      (fun w hw => h w (List.mem_cons_of_mem p hw))
    calc restoreAll (p :: ps) τ s = restoreAll ps (restoreStep τ p) s := rfl
      _ = restoreStep τ p s := ih
      _ = τ s := hstep

theorem patchAll_skip : ∀ (ps : List (Nat × Option WriteFn)) (τ : StrState) (s : Nat),
    (∀ w, (s, some w) ∉ ps) → patchAll ps τ s = τ s
  | [], _, _, _ => rfl
  | p :: ps, τ, s, h => by
    have hstep : patchStep τ p s = τ s := by
      unfold patchStep
      cases hp : p.2 with
      | none => rfl
      | some w =>
        have hne : ¬(s = p.1) := by
          intro he
          exact h w (by rw [he, ← hp]; exact List.mem_cons_self p ps)
        simp [hne]
    have ih := patchAll_skip ps (patchStep τ p) s
      (fun w hw => h w (List.mem_cons_of_mem p hw))
    calc patchAll (p :: ps) τ s = patchAll ps (patchStep τ p) s := rfl
      _ = patchStep τ p s := ih
      _ = τ s := hstep

theorem restoreAll_eq : ∀ (ps : List (Nat × Option WriteFn)) (τ : StrState) (s : Nat) (w : WriteFn),
    (s, some w) ∈ ps → (∀ v, (s, v) ∈ ps → v = some w) → restoreAll ps τ s = some w
  | [], _, _, _, hmem, _ => by simp at hmem
  | p :: ps, τ, s, w, hmem, huniq => by
    by_cases hrest : (s, some w) ∈ ps
    · exact restoreAll_eq ps (restoreStep τ p) s w hrest
        (fun v hv => huniq v (List.mem_cons_of_mem p hv))
    · have hp : p = (s, some w) := by
        rcases List.mem_cons.mp hmem with h | h
        · exact h.symm
        · exact absurd h hrest
      subst hp
      have hskip : ∀ w', (s, some w') ∉ ps := by
        intro w' hw'
        have := huniq (some w') (List.mem_cons_of_mem _ hw')
        rw [Option.some.inj this] at hw'
        exact hrest hw'
      calc restoreAll ((s, some w) :: ps) τ s
          = restoreAll ps (restoreStep τ (s, some w)) s := rfl
        _ = restoreStep τ (s, some w) s := restoreAll_skip ps _ s hskip
        _ = some w := by simp [restoreStep]

theorem patchStep_isSome (τ : StrState) (p : Nat × Option WriteFn) (s : Nat)
    (h : (τ s).isSome = true) : ((patchStep τ p) s).isSome = true := by
  unfold patchStep
  cases p.2 with
  | none => exact h
  | some w =>
    by_cases he : s = p.1
    · subst he; simpa using h
    · simpa [he] using h

theorem patchAll_wrap : ∀ (ps : List (Nat × Option WriteFn)) (τ : StrState) (s : Nat),
    (∃ w, (s, some w) ∈ ps) → (τ s).isSome = true →
      ∃ w', patchAll ps τ s = some (WriteFn.indented w')
  | [], _, _, hmem, _ => by simp at hmem
  | p :: ps, τ, s, hmem, hsome => by
    by_cases hrest : ∃ w, (s, some w) ∈ ps
    · exact patchAll_wrap ps (patchStep τ p) s hrest (patchStep_isSome τ p s hsome)
    · obtain ⟨w, hw⟩ := hmem
      have hp : p = (s, some w) := by
        rcases List.mem_cons.mp hw with h | h
        · exact h.symm
        · exact absurd ⟨w, h⟩ hrest
      subst hp
      obtain ⟨u, hu⟩ := Option.isSome_iff_exists.mp hsome
      have hstep : patchStep τ (s, some w) s = some (WriteFn.indented u) := by
        simp [patchStep, hu]
      refine ⟨u, ?_⟩
      calc patchAll ((s, some w) :: ps) τ s
          = patchAll ps (patchStep τ (s, some w)) s := rfl
        _ = patchStep τ (s, some w) s :=
            patchAll_skip ps _ s (fun w' hw' => hrest ⟨w', hw'⟩)
        _ = some (WriteFn.indented u) := hstep

theorem wrapper_inner_restores {α : Type} (ss : List Nat)
    (func : StrState → StrState × Except PyErr α) (σ : StrState) (s : Nat)
    (hs : s ∈ ss) (hsome : (σ s).isSome = true) :
    (wrapper_inner ss func σ).1 s = σ s := by
  obtain ⟨w, hw⟩ := Option.isSome_iff_exists.mp hsome
  have hmem : (s, some w) ∈ pairsOf ss σ := hw ▸ pairsOf_mem ss σ s hs
  have huniq : ∀ v, (s, v) ∈ pairsOf ss σ → v = some w :=
    fun v hv => (pairsOf_val ss σ s v hv).1.trans hw
  unfold wrapper_inner
  simp only
  rw [restoreAll_eq (pairsOf ss σ) _ s w hmem huniq, hw]

/-! ## String and digit helpers for `pretty_time` -/

theorem str_append_assoc : ∀ a b c : String, (a ++ b) ++ c = a ++ (b ++ c)
  | ⟨x⟩, ⟨y⟩, ⟨z⟩ => congrArg String.mk (List.append_assoc x y z)

theorem str_empty_append : ∀ s : String, "" ++ s = s
  | ⟨_⟩ => rfl

theorem toString_digit (k : ℤ) (h0 : 0 ≤ k) (h10 : k < 10) :
    ∃ d : Char, toString k = String.mk [d] ∧ d.isDigit = true := by
  interval_cases k
  · exact ⟨'0', by decide, by decide⟩
  · exact ⟨'1', by decide, by decide⟩
  · exact ⟨'2', by decide, by decide⟩
  · exact ⟨'3', by decide, by decide⟩
  · exact ⟨'4', by decide, by decide⟩
  · exact ⟨'5', by decide, by decide⟩
  · exact ⟨'6', by decide, by decide⟩
  · exact ⟨'7', by decide, by decide⟩
  · exact ⟨'8', by decide, by decide⟩
  · exact ⟨'9', by decide, by decide⟩

theorem fmt1_shape (q : ℚ) :
    ∃ (a : String) (d : Char), fmt1 q = a ++ "." ++ String.mk [d] ∧ d.isDigit = true := by
  obtain ⟨d, hd, hdig⟩ := toString_digit (Int.emod (roundHalfEven (10 * q)) 10)
    (Int.emod_nonneg _ (by norm_num)) (Int.emod_lt_of_pos _ (by norm_num))
  refine ⟨toString (Int.ediv (roundHalfEven (10 * q)) 10), d, ?_, hdig⟩
  simp only [fmt1]
  rw [← hd]

/-! ## Handler-list helpers for `CMLogger` -/

theorem listRemove_of_mem : ∀ (hs : List Nat) (h : Nat), h ∈ hs →
    listRemove hs h = .ok (hs.erase h)
  | [], h, hmem => by simp at hmem
  | x :: hs, h, hmem => by
    by_cases hx : x = h
    · subst hx
      simp [listRemove, List.erase_cons_head]
    · have hmem' : h ∈ hs := by
        rcases List.mem_cons.mp hmem with he | he
        · exact absurd he.symm hx
        · exact he
      have ih := listRemove_of_mem hs h hmem'
      have hbeq : ¬(x == h) = true := by simpa using hx
      simp only [listRemove, if_neg hx, ih, List.erase_cons, hbeq, if_false]
      rfl

theorem erase_concat_perm : ∀ (hs : List Nat) (h : Nat), ((hs ++ [h]).erase h).Perm hs
  | [], h => by simp
  | x :: hs, h => by
    by_cases hx : x = h
    · subst hx
      rw [List.cons_append, List.erase_cons_head]
      exact List.perm_append_singleton x hs
    · have hbeq : ¬(x == h) = true := by simpa using hx
      rw [List.cons_append, List.erase_cons]
      simp only [hbeq, if_false]
      exact List.Perm.cons x (erase_concat_perm hs h)

/-! ## Logger-chain traversal -/

theorem collectStreams_eq_specTargets :
    ∀ chain : List PyLogger, collectStreams chain = specTargets chain
  | [] => rfl
  | l :: ancestors => by
    by_cases hp : l.propagate
    · simp [collectStreams, specTargets, chainUpToStop, hp,
        collectStreams_eq_specTargets ancestors]
    · simp [collectStreams, specTargets, chainUpToStop, hp]

/-! ## Claim theorems -/

/-- Claim C1 (code bug): the replacement write function produced by `indent_write`
RAISES `IndexError` on the zero-length message — `message[-1]` fails on `""` —
so the degenerate split is not handled safely. This theorem evaluates the code
at the failing input `""`. -/
theorem C1_empty_message_raises :
    indent_write (fun m : List Char => m) [] = Except.error PyErr.indexError := rfl

/-- Claim C6: for every write primitive `W` and every non-empty message `m`,
`indent_write(W)(m)` delegates to `W` exactly once, with the transformed string
in which every line of `m` except a trailing empty fragment is prefixed with one
indentation unit, and returns whatever `W` returns; a message with no newline is
prefixed entirely. -/
theorem C6_indent_write_contract :
    ∀ (ρ : Type) (write : List Char → ρ) (m : List Char), m ≠ [] →
      indent_write write m = Except.ok (write (specIndent indentation_sep m))
      ∧ ('\n' ∉ m → specIndent indentation_sep m = '\t' :: m) := by
  intro ρ write m hm
  constructor
  · simp [indent_write, indent_write_msg_eq m hm]
  · intro hnl
    unfold specIndent
    rw [pySplit_no_newline m hnl]
    simp [tabbedLines, pyJoin, hm, indentation_sep]

/-- Witness for C6 at a concrete two-line message. -/
theorem C6_witness :
    indent_write (fun x => x) ['a', '\n', 'b'] = Except.ok ['\t', 'a', '\n', '\t', 'b'] := by
  have h := (C6_indent_write_contract (List Char) (fun x => x) ['a', '\n', 'b'] (by decide)).1
  rw [h]
  rfl

/-- Claim C7: two nested indentation scopes over the same stream compose — a
message written while both are active is prefixed with two indentation units per
affected line — and restore idempotently: after the scopes exit, the stream's
write attribute is the pristine primitive again and output is unmodified;
moreover an inner scope's patch-then-restore is transparent to an outer scope's
installed patch. -/
theorem C7_nested_scopes (m : List Char) (hm : m ≠ []) :
    (wrapper_inner [0] (wrapper_inner [0] (fun τ : StrState => (τ, writeObs τ 0 m)))
        (fun _ => some WriteFn.base)).2
      = Except.ok (specIndent (indentation_sep ++ indentation_sep) m)
    ∧ (wrapper_inner [0] (wrapper_inner [0] (fun τ : StrState => (τ, writeObs τ 0 m)))
        (fun _ => some WriteFn.base)).1 0 = some WriteFn.base
    ∧ writeObs ((wrapper_inner [0] (wrapper_inner [0] (fun τ : StrState => (τ, writeObs τ 0 m)))
        (fun _ => some WriteFn.base)).1) 0 m = Except.ok m
    ∧ (wrapper_inner [0] (fun τ : StrState => (τ, writeObs τ 0 m))
        (fun _ => some (WriteFn.indented WriteFn.base))).1 0
      = some (WriteFn.indented WriteFn.base) := by
  refine ⟨?_, ?_, ?_, ?_⟩
  · simp [wrapper_inner, pairsOf, patchAll, restoreAll, patchStep, restoreStep, writeObs,
      List.foldl]
    rw [runW_double m hm]
  · simp [wrapper_inner, pairsOf, patchAll, restoreAll, patchStep, restoreStep, List.foldl]
  · simp [wrapper_inner, pairsOf, patchAll, restoreAll, patchStep, restoreStep, writeObs,
      List.foldl, runW]
  · simp [wrapper_inner, pairsOf, patchAll, restoreAll, patchStep, restoreStep, List.foldl]

/-- Witness for C7 at the concrete message `"a\nb"`. -/
theorem C7_witness :
    (wrapper_inner [0] (wrapper_inner [0] (fun τ : StrState => (τ, writeObs τ 0 ['a', '\n', 'b'])))
        (fun _ => some WriteFn.base)).2
      = Except.ok ['\t', '\t', 'a', '\n', '\t', '\t', 'b'] := by
  have h := (C7_nested_scopes ['a', '\n', 'b'] (by decide)).1
  rw [h]
  rfl

/-- Claim C3: for every invocation of a function decorated by `indent(streams)` or
`indent_logger(logger)`, if the wrapped function raises then the same exception
propagates unchanged to the caller, and every targeted stream that was patched
(it had a write attribute) has its original write primitive restored before
control returns. -/
theorem C3_exception_restores :
    (∀ (α : Type) (ss : List Nat) (func : StrState → StrState × Except PyErr α)
        (σ : StrState) (e : PyErr),
      (func (patchAll (pairsOf ss σ) σ)).2 = Except.error e →
        (wrapper_inner ss func σ).2 = Except.error e
        ∧ ∀ s, s ∈ ss → (σ s).isSome = true → (wrapper_inner ss func σ).1 s = σ s)
    ∧ (∀ (α : Type) (chain : List PyLogger) (func : StrState → StrState × Except PyErr α)
        (σ : StrState) (e : PyErr),
      (func (patchAll (pairsOf (collectStreams chain) σ) σ)).2 = Except.error e →
        (wrapper_inner (collectStreams chain) func σ).2 = Except.error e
        ∧ ∀ s, s ∈ collectStreams chain → (σ s).isSome = true →
            (wrapper_inner (collectStreams chain) func σ).1 s = σ s) := by
  have main : ∀ (α : Type) (ss : List Nat) (func : StrState → StrState × Except PyErr α)
      (σ : StrState) (e : PyErr),
      (func (patchAll (pairsOf ss σ) σ)).2 = Except.error e →
        (wrapper_inner ss func σ).2 = Except.error e
        ∧ ∀ s, s ∈ ss → (σ s).isSome = true → (wrapper_inner ss func σ).1 s = σ s := by
    intro α ss func σ e hfe
    constructor
    · simpa [wrapper_inner] using hfe
    · intro s hs hsome
      exact wrapper_inner_restores ss func σ s hs hsome
  exact ⟨main, fun α chain => main α (collectStreams chain)⟩

/-- Witness for C3: a body that raises `ValueError`; the exception propagates and
the stream's primitive is restored. -/
theorem C3_witness :
    (wrapper_inner [0]
        (fun τ : StrState => (τ, (Except.error PyErr.valueError : Except PyErr Unit)))
        (fun _ => some WriteFn.base)).2 = Except.error PyErr.valueError
    ∧ (wrapper_inner [0]
        (fun τ : StrState => (τ, (Except.error PyErr.valueError : Except PyErr Unit)))
        (fun _ => some WriteFn.base)).1 0 = some WriteFn.base := by
  have h := C3_exception_restores.1 Unit [0]
    (fun τ : StrState => (τ, (Except.error PyErr.valueError : Except PyErr Unit)))
    (fun _ => some WriteFn.base) PyErr.valueError rfl
  exact ⟨h.1, h.2 0 (by decide) rfl⟩

/-- Claim C10: in `indent` and `indent_logger` all original write primitives are
captured before any stream is patched, so for any list of targeted streams —
even one containing the same stream more than once — every targeted stream's
write attribute equals its pre-call value after the decorated call completes
(the body is any state transformer that leaves write attributes as it found
them, e.g. any body whose own nested scopes have unwound). -/
theorem C10_duplicates_restore :
    (∀ (α : Type) (ss : List Nat) (func : StrState → StrState × Except PyErr α)
        (σ : StrState), (∀ τ, (func τ).1 = τ) →
      ∀ s, s ∈ ss → (wrapper_inner ss func σ).1 s = σ s)
    ∧ (∀ (α : Type) (chain : List PyLogger) (func : StrState → StrState × Except PyErr α)
        (σ : StrState), (∀ τ, (func τ).1 = τ) →
      ∀ s, s ∈ collectStreams chain → (wrapper_inner (collectStreams chain) func σ).1 s = σ s) := by
  have main : ∀ (α : Type) (ss : List Nat) (func : StrState → StrState × Except PyErr α)
      (σ : StrState), (∀ τ, (func τ).1 = τ) →
      ∀ s, s ∈ ss → (wrapper_inner ss func σ).1 s = σ s := by
    intro α ss func σ hfunc s hs
    by_cases hsome : (σ s).isSome = true
    · exact wrapper_inner_restores ss func σ s hs hsome
    · have hσ : σ s = none := Option.not_isSome_iff_eq_none.mp (by simpa using hsome)
      have hnone : ∀ w, (s, some w) ∉ pairsOf ss σ := by
        intro w hw
        have hv := (pairsOf_val ss σ s _ hw).1
        rw [hσ] at hv
        exact Option.noConfusion hv
      show restoreAll (pairsOf ss σ) (func (patchAll (pairsOf ss σ) σ)).1 s = σ s
      rw [restoreAll_skip _ _ _ hnone, hfunc (patchAll (pairsOf ss σ) σ),
        patchAll_skip _ _ _ hnone]
  exact ⟨main, fun α chain => main α (collectStreams chain)⟩

/-- Witness for C10 with a duplicated stream in the target list. -/
theorem C10_witness :
    (wrapper_inner [0, 0] (fun τ : StrState => (τ, (Except.ok () : Except PyErr Unit)))
        (fun _ => some WriteFn.base)).1 0 = some WriteFn.base :=
  C10_duplicates_restore.1 Unit [0, 0]
    (fun τ : StrState => (τ, (Except.ok () : Except PyErr Unit)))
    (fun _ => some WriteFn.base) (fun _ => rfl) 0 (by decide)

/-- Claim C8: for a function decorated by `indent_logger(logger)`, the targeted
streams are exactly the handler streams of the logger together with those of its
ancestors, the parent walk stopping at the first logger whose propagate flag is
false (that logger's own handlers still included) or at the root; targeted
objects without a write attribute are skipped without error (they are neither
patched nor restored, and the call completes normally around them). -/
theorem C8_logger_targets :
    ∀ (chain : List PyLogger) (σ : StrState),
      collectStreams chain = specTargets chain
      ∧ (∀ s, (σ s).isSome = true → s ∈ specTargets chain →
          ∃ w', patchAll (pairsOf (collectStreams chain) σ) σ s = some (WriteFn.indented w'))
      ∧ (∀ s, s ∉ specTargets chain →
          patchAll (pairsOf (collectStreams chain) σ) σ s = σ s)
      ∧ (∀ (α : Type) (func : StrState → StrState × Except PyErr α) (s : Nat),
          (∀ τ, (func τ).1 = τ) → σ s = none →
            patchAll (pairsOf (collectStreams chain) σ) σ s = σ s
            ∧ (wrapper_inner (collectStreams chain) func σ).1 s = σ s) := by
  intro chain σ
  have heq := collectStreams_eq_specTargets chain
  refine ⟨heq, ?_, ?_, ?_⟩
  · intro s hsome hmem
    rw [← heq] at hmem
    obtain ⟨u, hu⟩ := Option.isSome_iff_exists.mp hsome
    exact patchAll_wrap (pairsOf (collectStreams chain) σ) σ s
      ⟨u, hu ▸ pairsOf_mem _ σ s hmem⟩ hsome
  · intro s hnmem
    refine patchAll_skip _ σ s ?_
    intro w hw
    exact hnmem (heq ▸ (pairsOf_val _ σ s _ hw).2)
  · intro α func s hfunc hσ
    have hnone : ∀ w, (s, some w) ∉ pairsOf (collectStreams chain) σ := by
      intro w hw
      have hv := (pairsOf_val _ σ s _ hw).1
      rw [hσ] at hv
      exact Option.noConfusion hv
    refine ⟨patchAll_skip _ σ s hnone, ?_⟩
    show restoreAll (pairsOf (collectStreams chain) σ)
      (func (patchAll (pairsOf (collectStreams chain) σ) σ)).1 s = σ s
    rw [restoreAll_skip _ _ _ hnone, hfunc (patchAll (pairsOf (collectStreams chain) σ) σ),
      patchAll_skip _ _ _ hnone]

/-- Witness for C8 on a three-logger chain whose middle logger does not propagate:
the third logger's stream is not targeted, the handler without a stream attribute
is skipped, and targeted stream 1 gets patched. -/
theorem C8_witness :
    collectStreams
        [⟨[⟨some 1⟩, ⟨none⟩], true⟩, ⟨[⟨some 2⟩], false⟩, ⟨[⟨some 3⟩], true⟩] = [1, 2]
    ∧ ∃ w', patchAll
        (pairsOf (collectStreams
          [⟨[⟨some 1⟩, ⟨none⟩], true⟩, ⟨[⟨some 2⟩], false⟩, ⟨[⟨some 3⟩], true⟩])
          (fun _ => some WriteFn.base))
        (fun _ => some WriteFn.base) 1 = some (WriteFn.indented w') := by
  have h := C8_logger_targets
    [⟨[⟨some 1⟩, ⟨none⟩], true⟩, ⟨[⟨some 2⟩], false⟩, ⟨[⟨some 3⟩], true⟩]
    (fun _ => some WriteFn.base)
  exact ⟨h.1.trans (by rfl), h.2.1 1 rfl (by decide)⟩

/-- Claim C4: for every `CMLogger` scope (`TelegramLogger` and `FileLogger` are the
two instantiations of `created`), after the scope exits — body returned normally
or raised, handler attached or not, creation failed or not — the logger's handler
list is a permutation of (in particular has exactly the same membership as) the
list immediately before the scope was entered. -/
theorem C4_scope_symmetry :
    ∀ (hs : List Nat) (created : Except PyErr (Option Nat)) (body : Except PyErr Unit),
      ((cm_scope hs created body).1).Perm hs := by
  intro hs created body
  cases created with
  | error e => simp [cm_scope]
  | ok newH =>
    cases newH with
    | none => cases body <;> simp [cm_scope, cm_exit, cm_exit_trace]
    | some h =>
      have hrem : listRemove (hs ++ [h]) h = .ok ((hs ++ [h]).erase h) :=
        listRemove_of_mem _ h (by simp)
      cases body <;>
        simpa [cm_scope, cm_exit, cm_exit_trace, hrem] using erase_concat_perm hs h

/-- Claim C9: `CMLogger.__exit__` — when a handler was attached and the body raised,
the formatted traceback is logged at error severity strictly BEFORE the handler
is removed (the `errorLog` event comes first in the trace and carries the handler
list still containing the handler); when no handler was attached, exit performs
no logging and no removal. -/
theorem C9_error_before_removal :
    (∀ (hs : List Nat) (exc : Bool), cm_exit_trace hs none exc = ([], Except.ok hs))
    ∧ (∀ (hs : List Nat) (h : Nat), h ∈ hs →
        cm_exit_trace hs (some h) true
          = ([ExitEvent.errorLog hs, ExitEvent.removed h, ExitEvent.debugLog],
             Except.ok (hs.erase h))) := by
  constructor
  · intro hs exc
    rfl
  · intro hs h hmem
    simp [cm_exit_trace, listRemove_of_mem hs h hmem]

/-- Witness for C9 on a one-handler logger exiting on an exception. -/
theorem C9_witness :
    cm_exit_trace [5] (some 5) true
      = ([ExitEvent.errorLog [5], ExitEvent.removed 5, ExitEvent.debugLog], Except.ok []) := by
  have h := C9_error_before_removal.2 [5] 5 (by decide)
  simpa using h

/-- Counterexample to C2 as stated: with the optional dependency available, a token
given, and an empty filesystem, `chat_ID = ""` does NOT yield `None` — `int("")`
raises `ValueError`, the fallback treats `""` as a path, and `open("")` raises
`FileNotFoundError`, which propagates. -/
theorem C2_counterexample :
    new_telegram_handler ⟨true, "/root", fun _ => none⟩ (some (ChatID.str "")) (some "tok")
      30 FmtArg.noneArg = Except.error PyErr.fileNotFoundError := rfl

/-- Claim C2 amended: a recipient identifier equal to zero yields no destination
and raises no error; a recipient identifier equal to the empty string is treated
as a file path, and (when the dependency is available and no file exists at the
empty path) raises `FileNotFoundError` instead of yielding no destination. -/
theorem C2_amended_zero_disables :
    (∀ (env : PyEnv) (tok : String) (lvl : Int) (fmt : FmtArg),
      new_telegram_handler env (some (ChatID.num 0)) (some tok) lvl fmt = Except.ok none)
    ∧ (∀ (env : PyEnv) (tok : String) (lvl : Int) (fmt : FmtArg),
        env.telegram_available = true → env.fs "" = none →
        new_telegram_handler env (some (ChatID.str "")) (some tok) lvl fmt
          = Except.error PyErr.fileNotFoundError) := by
  constructor
  · intro env tok lvl fmt
    cases htel : env.telegram_available <;> simp [new_telegram_handler, htel]
  · intro env tok lvl fmt htel hfs
    have hparse : pyIntParse "" = none := rfl
    have hexp : expanduser env.home "" = "" := rfl
    simp [new_telegram_handler, htel, hparse, hexp, hfs]

/-- Witness for C2's amended statement at a concrete environment. -/
theorem C2_witness :
    new_telegram_handler ⟨true, "/h", fun _ => none⟩ (some (ChatID.num 0)) (some "t")
        30 FmtArg.noneArg = Except.ok none
    ∧ new_telegram_handler ⟨true, "/h", fun _ => none⟩ (some (ChatID.str "")) (some "t")
        30 FmtArg.noneArg = Except.error PyErr.fileNotFoundError :=
  ⟨C2_amended_zero_disables.1 ⟨true, "/h", fun _ => none⟩ "t" 30 FmtArg.noneArg,
   C2_amended_zero_disables.2 ⟨true, "/h", fun _ => none⟩ "t" 30 FmtArg.noneArg rfl rfl⟩

theorem pretty_parts (h m : ℤ) (A B C : String) :
    (if 0 < m then (if 0 < h then "" ++ A else "") ++ B else (if 0 < h then "" ++ A else "")) ++ C
      = (if 1 ≤ h then A else "") ++ ((if 1 ≤ m then B else "") ++ C) := by
  have e1 : (0 < h) = (1 ≤ h) := propext (by omega)
  have e2 : (0 < m) = (1 ≤ m) := propext (by omega)
  simp only [e1, e2]
  by_cases h1 : 1 ≤ h <;> by_cases h2 : 1 ≤ m <;>
    simp [h1, h2, str_empty_append, str_append_assoc]

theorem append_fmt1_shape (p : String) (q : ℚ) :
    ∃ (a : String) (d : Char),
      p ++ (fmt1 q ++ " s") = a ++ "." ++ String.mk [d] ++ " s" ∧ d.isDigit = true := by
  obtain ⟨a, d, hfd, hdig⟩ := fmt1_shape q
  refine ⟨p ++ a, d, ?_, hdig⟩
  rw [hfd]
  simp [str_append_assoc]

/-- Claim C5: for every non-negative duration `t` (exact rationals in place of
floats), `pretty_time t` matches the spec format — hours only when the
whole-hours value is at least 1, minutes (after subtracting whole hours) only
when at least 1, seconds always with exactly one decimal digit — and the three
named examples hold: `pretty_time 124 = "2 min 4.0 s"`,
`pretty_time 3601.4 = "1 h 1.4 s"`, and `pretty_time 59.95 = "60.0 s"` (one
decimal digit, no minutes or hours components; `59.95` rounds up to `60.0`
exactly as CPython's float formatting does). -/
theorem C5_pretty_time_format :
    (∀ t : ℚ, 0 ≤ t →
      pretty_time t = prettyTimeSpec t
      ∧ ∃ (a : String) (d : Char),
          pretty_time t = a ++ "." ++ String.mk [d] ++ " s" ∧ d.isDigit = true)
    ∧ pretty_time 124 = "2 min 4.0 s"
    ∧ pretty_time (18007 / 5 : ℚ) = "1 h 1.4 s"
    ∧ pretty_time (1199 / 20 : ℚ) = "60.0 s" := by
  refine ⟨?_, ?_, ?_, ?_⟩
  · intro t ht
    constructor
    · simp only [pretty_time, prettyTimeSpec]
      exact pretty_parts _ _ _ _ _
    · simp only [pretty_time]
      exact append_fmt1_shape _ _
  · norm_num [pretty_time, fmt1, fmt0, roundHalfEven, ratFloor]
    rfl
  · norm_num [pretty_time, fmt1, fmt0, roundHalfEven, ratFloor]
    rfl
  · norm_num [pretty_time, fmt1, fmt0, roundHalfEven, ratFloor]
    rfl

/-- Witness for C5's universally quantified part at `t = 124`. -/
theorem C5_witness :
    pretty_time 124 = prettyTimeSpec 124 ∧ pretty_time 124 = "2 min 4.0 s" :=
  ⟨(C5_pretty_time_format.1 124 (by norm_num)).1, C5_pretty_time_format.2.1⟩
